import Mathlib

/-!
Verification development for the Astrix adaptive-mesh code.

This file contains a shallow embedding of the parts of the source that the
checked properties talk about:

* `Mesh/Coarsen` / Delaunay edge repair (`SingleEdgeRepair`,
  `devEdgeRepair`, `devEdgeRepairLimit`, `Delaunay::EdgeRepair`);
* the array collaborator (`Array::SetToValue`, `Array::SelectLargerThan`,
  together with the spec-described `ExclusiveScan` / `Compact` helpers whose
  implementations are not part of the sources at hand);
* the triangle-vertex index reduction loop used in `blendx.cu`
  (`CalcShockSensorSingle`);
* the `Coarsen::RemoveVertices` cycle loop (modelled from the spec);
* `MeshParameter::ReadFromFile`.

CUDA grid-stride kernels are embedded by their data-parallel denotation:
every work item reads the arrays as of pass start and writes only its own
output cell, so the pass denotes a pointwise map over the index range.  The
sequential host paths are embedded as left folds, exactly following the
`for` loops of the source.  Machine `int` values become `Int`, array reads
use `List.getD` (all reads performed by the embedded code are in bounds in
the source's intended use), and array writes use `List.set`.
-/

namespace Astrix

/-- Embedding of the CUDA `int2` type (used for edge-triangle entries:
the two triangles sharing an edge, `-1` for a boundary/periodic sentinel). -/
structure Int2 where
  x : Int
  y : Int
  deriving DecidableEq, Repr

instance : Inhabited Int2 := ⟨⟨0, 0⟩⟩

/-- Embedding of the CUDA `int3` type (used for triangle-edge entries:
the three edges of a triangle). -/
structure Int3 where
  x : Int
  y : Int
  z : Int
  deriving DecidableEq, Repr

instance : Inhabited Int3 := ⟨⟨0, 0, 0⟩⟩

/-- Does the current edge list of triangle `t` contain edge `i`?  This is the
test `i == e1 || i == e2 || i == e3` on the entries of `pTe[t]` performed by
`SingleEdgeRepair` (in negated form) in `edgerepair.cu`. -/
def containsEdge (pTe : List Int3) (t : Int) (i : Nat) : Bool :=
  let e := pTe.getD t.toNat default
  ((i : Int) == e.x) || ((i : Int) == e.y) || ((i : Int) == e.z)

/-- One slot of the `SingleEdgeRepair` body (`edgerepair.cu`, the code is
identical for `t1` and `t2`): a sentinel is left alone; a triangle whose edge
list contains `i` is left alone; otherwise the slot is replaced by the
substitute `pTsub[t]`, in a single step. -/
def slotRepair (pTsub : List Int) (pTe : List Int3) (i : Nat) (t : Int) : Int :=
  if t = -1 then t
  else if containsEdge pTe t i then t
  else pTsub.getD t.toNat (-1)

/-- The new edge-triangle pair computed by `SingleEdgeRepair` for edge `i`
from its old pair `p`. -/
def repairPair (pTsub : List Int) (pTe : List Int3) (i : Nat) (p : Int2) : Int2 :=
  ⟨slotRepair pTsub pTe i p.x, slotRepair pTsub pTe i p.y⟩

/-- `SingleEdgeRepair(i, pTsub, pTe, pEt)` (`edgerepair.cu`): reads `pEt[i]`,
computes the repaired pair, and writes it back to `pEt[i]`. -/
def SingleEdgeRepair (pTsub : List Int) (pTe : List Int3) (pEt : List Int2)
    (i : Nat) : List Int2 :=
  pEt.set i (repairPair pTsub pTe i (pEt.getD i default))

/-- Data-parallel denotation of the kernel `devEdgeRepair` (`edgerepair.cu`):
every edge index `i < nEdge` is handled by exactly one work item, which reads
`pTsub`, `pTe` and `pEt[i]` as of pass start and writes only `pEt[i]`. -/
def devEdgeRepair (pTsub : List Int) (pTe : List Int3) (pEt : List Int2) :
    List Int2 :=
  (List.range pEt.length).map (fun i => repairPair pTsub pTe i (pEt.getD i default))

/-- Sequential host path of `Delaunay::EdgeRepair` with `edgeNeedsChecking == 0`
(`edgerepair.cu`): `for (int i = 0; i < nEdge; i++) SingleEdgeRepair(i, ...)`. -/
def hostEdgeRepair (pTsub : List Int) (pTe : List Int3) (pEt : List Int2) :
    List Int2 :=
  (List.range pEt.length).foldl (fun et i => SingleEdgeRepair pTsub pTe et i) pEt

/-- Data-parallel denotation of the kernel `devEdgeRepairLimit`
(`edgerepair.cu`): only the edges listed in the first `nEdgeCheck` entries of
`pEnC` are repaired, each from the pass-start state. -/
def devEdgeRepairLimit (nEdgeCheck : Nat) (pEnC : List Nat) (pTsub : List Int)
    (pTe : List Int3) (pEt : List Int2) : List Int2 :=
  (List.range pEt.length).map
    (fun i => if i ∈ pEnC.take nEdgeCheck then repairPair pTsub pTe i (pEt.getD i default)
              else pEt.getD i default)

/-- Sequential host path of `Delaunay::EdgeRepair` with a candidate list
(`edgerepair.cu`): `for (int i = 0; i < nEdgeCheck; i++)
SingleEdgeRepair(pEnC[i], ...)`. -/
def hostEdgeRepairLimit (nEdgeCheck : Nat) (pEnC : List Nat) (pTsub : List Int)
    (pTe : List Int3) (pEt : List Int2) : List Int2 :=
  (pEnC.take nEdgeCheck).foldl (fun et e => SingleEdgeRepair pTsub pTe et e) pEt

/-- The mesh state visible to `Delaunay::EdgeRepair`: the `triangleSubstitute`
array of the `Delaunay` object and the `triangleEdges` / `edgeTriangles`
arrays of the `Connectivity` object. -/
structure DelaunayMeshState where
  triangleSubstitute : List Int
  triangleEdges : List Int3
  edgeTriangles : List Int2
  deriving DecidableEq, Repr

/-- `Delaunay::EdgeRepair(connectivity, edgeNeedsChecking, nEdgeCheck)`
(`edgerepair.cu`).  `cudaFlag = 1` selects the kernel launch, any other value
the sequential host loop; `none` for `edgeNeedsChecking` means all
`nEdge = edgeTriangles->GetSize()` edges are checked.  The function writes
only through `pEt`; `pTsub` and `pTe` are only read. -/
def EdgeRepair (cudaFlag : Nat) (s : DelaunayMeshState)
    (edgeNeedsChecking : Option (List Nat)) (nEdgeCheck : Nat) :
    DelaunayMeshState :=
  { s with
    edgeTriangles :=
      match edgeNeedsChecking with
      | none =>
        if cudaFlag = 1 then
          devEdgeRepair s.triangleSubstitute s.triangleEdges s.edgeTriangles
        else
          hostEdgeRepair s.triangleSubstitute s.triangleEdges s.edgeTriangles
      | some pEnC =>
        if cudaFlag = 1 then
          devEdgeRepairLimit nEdgeCheck pEnC s.triangleSubstitute
            s.triangleEdges s.edgeTriangles
        else
          hostEdgeRepairLimit nEdgeCheck pEnC s.triangleSubstitute
            s.triangleEdges s.edgeTriangles }

/-! ### The Array collaborator (`select.cu`, `value.cu`) -/

/-- The `Array<T>` container (for `T = int`): `size` active elements per
dimension, `realSize` allocated slots per dimension, `nDims` dimensions, and
the flat storage (`hostVec`/`deviceVec`) of length `nDims * realSize`;
element `i` of dimension `n` lives at flat position `i + n * realSize`. -/
structure ArrayInt where
  size : Nat
  realSize : Nat
  nDims : Nat
  vec : List Int
  deriving DecidableEq, Repr

/-- The flat positions written by `Array<T>::SetToValue(value, startIndex,
endIndex)` for dimension `n`: `i + n*realSize` for `startIndex <= i <
endIndex`. -/
def setPositions (startIndex endIndex realSize n : Nat) : List Nat :=
  List.range' (startIndex + n * realSize) (endIndex - startIndex)

/-- Sequential host path of `Array<T>::SetToValue(value, startIndex,
endIndex)` (`value.cu`): two nested `for` loops writing
`hostVec[i + n*realSize] = value`. -/
def hostSetToValue (vec : List Int) (value : Int) (startIndex endIndex realSize nDims : Nat) :
    List Int :=
  (List.range nDims).foldl
    (fun vc n => (setPositions startIndex endIndex realSize n).foldl
      (fun v2 k => v2.set k value) vc)
    vec

/-- Data-parallel denotation of the kernel `devSetToValue` (`value.cu`): for
each dimension `n < nDims`, the grid-stride loop writes `value` to every flat
position `i + n*realSize` with `startIndex <= i < endIndex`; every other cell
keeps its pass-start contents. -/
def devSetToValue (vec : List Int) (value : Int) (startIndex endIndex realSize nDims : Nat) :
    List Int :=
  (List.range vec.length).map
    (fun k => if (List.range nDims).any
        (fun n => decide (startIndex + n * realSize ≤ k) &&
                  decide (k < endIndex + n * realSize))
      then value else vec.getD k 0)

/-- `Array<T>::SetToValue(value, startIndex, endIndex)` (`value.cu`):
`cudaFlag = 1` launches the kernel, `cudaFlag = 0` runs the host loops. -/
def SetToValue (cudaFlag : Nat) (a : ArrayInt) (value : Int)
    (startIndex endIndex : Nat) : ArrayInt :=
  { a with
    vec :=
      if cudaFlag = 1 then
        devSetToValue a.vec value startIndex endIndex a.realSize a.nDims
      else
        hostSetToValue a.vec value startIndex endIndex a.realSize a.nDims }

/-- Sequential host path of the select-flag computation in
`Array<T>::SelectLargerThan` (`select.cu`): `for (i < size)
pSelectFlag[i] = (hostVec[i] > value)`, writing into the freshly allocated
flag buffer `f0` of length `size`. -/
def hostSelectFlags (f0 : List Nat) (data : List Int) (value : Int) : List Nat :=
  (List.range data.length).foldl
    (fun fl i => fl.set i (if value < data.getD i 0 then 1 else 0)) f0

/-- Data-parallel denotation of the kernel `devSelectLargerThan`
(`select.cu`): flag cell `i < size` receives `1` iff `data[i] > value`. -/
def devSelectFlags (f0 : List Nat) (data : List Int) (value : Int) : List Nat :=
  (List.range f0.length).map
    (fun i => if i < data.length then (if value < data.getD i 0 then 1 else 0)
              else f0.getD i 0)

/-- Modelled from the spec: `Array<int>::ExclusiveScan` (its implementation is
not among the sources at hand).  The spec describes the array collaborator as
offering "exclusive-scan-based compaction given a keep-mask"; the exclusive
scan of the keep-flags yields each kept element's output position, and the
call returns the total number of kept elements. -/
def exclusiveScanAux : List Nat → Nat → List Nat
  | [], _ => []
  | f :: fs, acc => acc :: exclusiveScanAux fs (acc + f)

/-- Modelled from the spec: the pair (exclusive scan, total) returned by
`Array<int>::ExclusiveScan`. -/
def ExclusiveScan (flags : List Nat) : List Nat × Nat :=
  (exclusiveScanAux flags 0, flags.sum)

/-- Modelled from the spec: `Array<T>::Compact(nKeep, keepFlags, keepFlagsScan)`
(its implementation is not among the sources at hand).  The spec describes
"boolean select/filter with compacted output and count" and "exclusive-scan-based
compaction given a keep-mask": the element at index `i` whose keep-flag is `1`
moves to output position `scan[i]`, i.e. the kept elements are compacted to
the front in their original relative order. -/
def Compact {α : Type} : List Nat → List α → List α
  | f :: fs, x :: xs => if f = 1 then x :: Compact fs xs else Compact fs xs
  | _, _ => []

/-- The keep flags computed by `Array<T>::SelectLargerThan` (`select.cu`):
the kernel when `cudaFlag = 1`, the host loop otherwise, writing into the
fresh buffer `f0`. -/
def selectFlagsOf (cudaFlag : Nat) (f0 : List Nat) (data : List Int)
    (value : Int) : List Nat :=
  if cudaFlag = 1 then devSelectFlags f0 data value
  else hostSelectFlags f0 data value

/-- `Array<T>::SelectLargerThan(value, A)` (`select.cu`): compute the keep
flags (kernel or host loop according to `cudaFlag`), exclusive-scan them to
get `nSelect`, compact the receiver `data` and the companion array `compan`,
and return `nSelect` with the two compacted arrays. -/
def SelectLargerThan {α : Type} (cudaFlag : Nat) (f0 : List Nat) (value : Int)
    (data : List Int) (compan : List α) : Nat × List Int × List α :=
  ((ExclusiveScan (selectFlagsOf cudaFlag f0 data value)).2,
   Compact (selectFlagsOf cudaFlag f0 data value) data,
   Compact (selectFlagsOf cudaFlag f0 data value) compan)

/-! ### Triangle-vertex index reduction (`blendx.cu`, `CalcShockSensorSingle`) -/

/-- The first reduction loop of `CalcShockSensorSingle` (`blendx.cu`):
`while (a >= nVertex) a -= nVertex;`.  The loop only terminates for
`nVertex >= 1`; the guard carries that condition so that the model is total
(for `nVertex <= 0` the C loop never exits, which is outside the claimed
range). -/
def subLoop (nVertex : Int) (a : Int) : Int :=
  if _h : 1 ≤ nVertex ∧ nVertex ≤ a then subLoop nVertex (a - nVertex) else a
termination_by a.toNat
decreasing_by
  have h1 : (0 : Int) < a := lt_of_lt_of_le _h.1 _h.2
  have h2 : a - nVertex < a := by omega
  exact (Int.toNat_lt_toNat h1).mpr h2

/-- The second reduction loop of `CalcShockSensorSingle` (`blendx.cu`):
`while (a < 0) a += nVertex;`, with the same totality guard. -/
def addLoop (nVertex : Int) (a : Int) : Int :=
  if _h : 1 ≤ nVertex ∧ a < 0 then addLoop nVertex (a + nVertex) else a
termination_by (-a).toNat
decreasing_by
  have h2 : -(a + nVertex) < -a := by omega
  exact (Int.toNat_lt_toNat (show (0:Int) < -a by omega)).mpr h2

/-- The full index-reduction sequence of `CalcShockSensorSingle`
(`blendx.cu`): first subtract `nVertex` while `a >= nVertex`, then add
`nVertex` while `a < 0`. -/
def reduceIndex (nVertex : Int) (a : Int) : Int :=
  addLoop nVertex (subLoop nVertex a)

/-! ### `Coarsen::RemoveVertices` cycle loop -/

/-- Modelled from the spec: the cycle loop of `Coarsen::RemoveVertices`
(only its declaration, `coarsen.h`, is among the sources at hand; the
implementation file is not).  Spec: "Loop up to a caller-supplied cycle cap;
stops early once no removal candidates remain."  `step` performs one removal
cycle on the mesh state, `nCandidates` counts the removal candidates of a
state, `maxCycle` is the caller-supplied cap.  Returns the final state
together with the number of removal cycles actually performed. -/
def RemoveVertices {σ : Type} (step : σ → σ) (nCandidates : σ → Nat) :
    Nat → σ → σ × Nat
  | 0, s => (s, 0)
  | maxCycle + 1, s =>
    if nCandidates s = 0 then (s, 0)
    else
      let r := RemoveVertices step nCandidates maxCycle (step s)
      (r.1, r.2 + 1)

/-! ### `MeshParameter::ReadFromFile` (`readfromfile.cpp`) -/

/-- The `problemDefinition` values recognized by `MeshParameter::ReadFromFile`
(`readfromfile.cpp`), plus the undefined initial value. -/
inductive ProblemDefinition where
  | UNDEFINED | LINEAR | CYL | KH | RIEMANN | SOD | BLAST | VORTEX | NOH | SOURCE
  deriving DecidableEq, Repr

/-- The `MeshParameter` fields assigned by `ReadFromFile`.  The numeric
fields keep the abstract value type `V` (the C++ code converts the token
with `atof` and stores it in a numeric field; only which field changes, not
the converted value, matters for the checked properties). -/
structure MeshParameterState (V : Type) where
  problemDef : ProblemDefinition
  equivalentPointsX : V
  minx : V
  maxx : V
  miny : V
  maxy : V
  periodicFlagX : V
  periodicFlagY : V
  adaptiveMeshFlag : V
  maxRefineFactor : V
  nStepSkipRefine : V
  nStepSkipCoarsen : V
  minError : V
  maxError : V
  qualityBound : V
  structuredFlag : V

/-- The guard used by `ReadFromFile` for every numeric parameter:
`!secondWord.empty() && secondWord.find_first_not_of(allowed) == npos`,
i.e. the token is non-empty and all its characters are in the allowed set. -/
def tokenOk (allowed : List Char) (w : String) : Bool :=
  !w.isEmpty && w.data.all (fun c => allowed.contains c)

/-- The digits-only character set `"0123456789"` of `readfromfile.cpp`. -/
def digitChars : List Char := "0123456789".data

/-- The character set `"0123456789-.e"` used for the coordinate bounds. -/
def realChars : List Char := "0123456789-.e".data

/-- The character set `"0123456789.-e"` used for the error bounds and the
quality bound (same member set as `realChars`, written as in the source). -/
def errChars : List Char := "0123456789.-e".data

/-- One line of `MeshParameter::ReadFromFile` (`readfromfile.cpp`): the first
two words have been extracted; each recognized `firstWord` updates its field
when its guard accepts the value token, otherwise the line has no effect.
`atof` abstracts the C `atof` conversion. -/
def readLine {V : Type} (atof : String → V) (p : MeshParameterState V)
    (firstWord secondWord : String) : MeshParameterState V :=
  let p := if firstWord = "problemDefinition" then
      let p := if secondWord = "LIN" then { p with problemDef := .LINEAR } else p
      let p := if secondWord = "CYL" then { p with problemDef := .CYL } else p
      let p := if secondWord = "KH" then { p with problemDef := .KH } else p
      let p := if secondWord = "RIEMANN" then { p with problemDef := .RIEMANN } else p
      let p := if secondWord = "SOD" then { p with problemDef := .SOD } else p
      let p := if secondWord = "BLAST" then { p with problemDef := .BLAST } else p
      let p := if secondWord = "VORTEX" then { p with problemDef := .VORTEX } else p
      let p := if secondWord = "NOH" then { p with problemDef := .NOH } else p
      if secondWord = "SOURCE" then { p with problemDef := .SOURCE } else p
    else p
  let p := if firstWord = "equivalentPointsX" ∧ tokenOk digitChars secondWord then
      { p with equivalentPointsX := atof secondWord } else p
  let p := if firstWord = "minX" ∧ tokenOk realChars secondWord then
      { p with minx := atof secondWord } else p
  let p := if firstWord = "maxX" ∧ tokenOk realChars secondWord then
      { p with maxx := atof secondWord } else p
  let p := if firstWord = "minY" ∧ tokenOk realChars secondWord then
      { p with miny := atof secondWord } else p
  let p := if firstWord = "maxY" ∧ tokenOk realChars secondWord then
      { p with maxy := atof secondWord } else p
  let p := if firstWord = "periodicFlagX" ∧ tokenOk ['0', '1'] secondWord then
      { p with periodicFlagX := atof secondWord } else p
  let p := if firstWord = "periodicFlagY" ∧ tokenOk ['0', '1'] secondWord then
      { p with periodicFlagY := atof secondWord } else p
  let p := if firstWord = "adaptiveMeshFlag" ∧ tokenOk ['0', '1'] secondWord then
      { p with adaptiveMeshFlag := atof secondWord } else p
  let p := if firstWord = "maxRefineFactor" ∧ tokenOk digitChars secondWord then
      { p with maxRefineFactor := atof secondWord } else p
  let p := if firstWord = "nStepSkipRefine" ∧ tokenOk digitChars secondWord then
      { p with nStepSkipRefine := atof secondWord } else p
  let p := if firstWord = "nStepSkipCoarsen" ∧ tokenOk digitChars secondWord then
      { p with nStepSkipCoarsen := atof secondWord } else p
  let p := if firstWord = "minError" ∧ tokenOk errChars secondWord then
      { p with minError := atof secondWord } else p
  let p := if firstWord = "maxError" ∧ tokenOk errChars secondWord then
      { p with maxError := atof secondWord } else p
  let p := if firstWord = "qualityBound" ∧ tokenOk errChars secondWord then
      { p with qualityBound := atof secondWord } else p
  if firstWord = "structuredFlag" ∧ tokenOk ['0', '1', '2'] secondWord then
      { p with structuredFlag := atof secondWord } else p

/-- The recognized numeric parameters of `readfromfile.cpp`, each with the
allowed character set of its `find_first_not_of` guard. -/
def recognizedParams : List (String × List Char) :=
  [("equivalentPointsX", digitChars), ("minX", realChars), ("maxX", realChars),
   ("minY", realChars), ("maxY", realChars), ("periodicFlagX", ['0', '1']),
   ("periodicFlagY", ['0', '1']), ("adaptiveMeshFlag", ['0', '1']),
   ("maxRefineFactor", digitChars), ("nStepSkipRefine", digitChars),
   ("nStepSkipCoarsen", digitChars), ("minError", errChars),
   ("maxError", errChars), ("qualityBound", errChars),
   ("structuredFlag", ['0', '1', '2'])]

/-- `MeshParameter::ReadFromFile` (`readfromfile.cpp`): if the file cannot be
opened (`openOk = false`) a `runtime_error` is thrown; otherwise every line
is processed in order, and after the whole file is read `CheckValidity()`
(abstracted as a predicate on the final state, its implementation being
elsewhere) either passes or rethrows.  The trailing `baseResolution` /
`maxResolution` arithmetic touches no recognized parameter field and throws
nothing, so it is not part of the model.  `Except.error` is a thrown
exception. -/
def ReadFromFile {V : Type} (openOk : Bool)
    (checkValidity : MeshParameterState V → Bool) (atof : String → V)
    (lines : List (String × String)) (p0 : MeshParameterState V) :
    Except Unit (MeshParameterState V) :=
  if !openOk then .error ()
  else
    let p := lines.foldl (fun p l => readLine atof p l.1 l.2) p0
    if checkValidity p then .ok p else .error ()

/-! ### Spec-side definitions used to state the claims -/

/-- The chain walk described by the SPEC for edge repair ("walk the
substitute chain from a stale triangle reference until reaching the triangle
whose current edge list truly contains the edge").  Fuel-bounded iterative
lookup through the substitute redirect array; this is the claimed behaviour,
to be compared against the single-step `SingleEdgeRepair` of the source. -/
def substituteChainWalk (pTsub : List Int) (pTe : List Int3) (i : Nat) :
    Nat → Int → Int
  | 0, t => t
  | fuel + 1, t =>
    if containsEdge pTe t i then t
    else substituteChainWalk pTsub pTe i fuel (pTsub.getD t.toNat (-1))

/-- An edge-triangle entry is consistent for edge `i`: each non-sentinel slot
references a triangle whose current edge list contains `i`. -/
def entryConsistent (pTe : List Int3) (i : Nat) (p : Int2) : Bool :=
  ((p.x == -1) || containsEdge pTe p.x i) && ((p.y == -1) || containsEdge pTe p.y i)

/-- A slot is repairable in one step: it is a sentinel, or consistent, or its
substitute's current edge list contains the edge. -/
def slotRepairable (pTsub : List Int) (pTe : List Int3) (i : Nat) (t : Int) : Bool :=
  (t == -1) || containsEdge pTe t i || containsEdge pTe (pTsub.getD t.toNat (-1)) i

/-- Precondition for idempotence of a repair pass: every substitute of a
stale triangle reference contains the repaired edge in its current edge
list. -/
def repairPrecond (pTsub : List Int) (pTe : List Int3) (pEt : List Int2) : Bool :=
  (List.range pEt.length).all
    (fun i => slotRepairable pTsub pTe i (pEt.getD i default).x &&
              slotRepairable pTsub pTe i (pEt.getD i default).y)

section FoldLemmas

variable {α : Type}

/-- A fold whose step rewrites a single cell preserves the length. -/
theorem foldl_length_of_preserve (s : List α → Nat → List α)
    (h : ∀ x i, (s x i).length = x.length) :
    ∀ (P : List Nat) (l : List α), (P.foldl s l).length = l.length := by
  intro P
  induction P with
  | nil => intro l; rfl
  | cons j P ih => intro l; rw [List.foldl_cons, ih, h]

/-- A sequential loop over indices `0, ..., n-1` writing `g i (cell i)` to
cell `i` behaves like an independent per-cell map: every cell is written
exactly once, from its own initial value. -/
theorem foldl_write_getElem?_range (g : Nat → α → α) (d : α) :
    ∀ (n : Nat) (l : List α) (k : Nat),
      ((List.range n).foldl (fun x i => x.set i (g i (x.getD i d))) l)[k]? =
        if k < n ∧ k < l.length then some (g k (l.getD k d)) else l[k]? := by
  intro n
  induction n with
  | zero =>
    intro l k
    simp
  | succ n ih =>
    intro l k
    rw [List.range_succ, List.foldl_append, List.foldl_cons, List.foldl_nil]
    have hlen : ((List.range n).foldl (fun x i => x.set i (g i (x.getD i d))) l).length
        = l.length :=
      foldl_length_of_preserve _ (fun x i => List.length_set x i _) _ _
    have hdn : ((List.range n).foldl (fun x i => x.set i (g i (x.getD i d))) l).getD n d
        = l.getD n d := by
      rw [List.getD_eq_getElem?_getD, List.getD_eq_getElem?_getD, ih]
      simp
    rw [List.getElem?_set, hdn, hlen]
    by_cases hnk : n = k
    · subst hnk
      by_cases hl : n < l.length
      · simp [hl]
      · have hnone : l[n]? = none := List.getElem?_eq_none (by omega)
        simp [hl, ih, hnone]
    · rw [if_neg hnk, ih]
      by_cases h1 : k < n ∧ k < l.length
      · rw [if_pos h1, if_pos ⟨by omega, h1.2⟩]
      · rw [if_neg h1, if_neg (fun hc => h1 ⟨by omega, hc.2⟩)]

/-- Reading an unwritten cell after a single-cell write. -/
theorem getD_set_ne (l : List α) (v d : α) {j k : Nat} (h : j ≠ k) :
    (l.set j v).getD k d = l.getD k d := by
  rw [List.getD_eq_getElem?_getD, List.getD_eq_getElem?_getD, List.getElem?_set_ne h]

/-- A sequential loop writing `g i (cell i)` to cell `i` for each `i` drawn
from a duplicate-free worklist behaves like an independent per-cell map over
the listed cells. -/
theorem foldl_write_getElem?_nodup (g : Nat → α → α) (d : α) :
    ∀ (P : List Nat), P.Nodup → ∀ (l : List α) (k : Nat),
      (P.foldl (fun x i => x.set i (g i (x.getD i d))) l)[k]? =
        if k ∈ P ∧ k < l.length then some (g k (l.getD k d)) else l[k]? := by
  intro P
  induction P with
  | nil =>
    intro _ l k
    simp
  | cons j P ih =>
    intro hnd l k
    have hj : j ∉ P := (List.nodup_cons.mp hnd).1
    rw [List.foldl_cons, ih (List.nodup_cons.mp hnd).2, List.length_set]
    by_cases hkP : k ∈ P
    · have hkj : j ≠ k := fun h => hj (h ▸ hkP)
      have hset : (l.set j (g j (l.getD j d)))[k]? = l[k]? := List.getElem?_set_ne hkj
      by_cases hkl : k < l.length
      · rw [if_pos ⟨hkP, hkl⟩, if_pos ⟨List.mem_cons_of_mem j hkP, hkl⟩,
          getD_set_ne l _ d hkj]
      · rw [if_neg (fun hc => hkl hc.2), if_neg (fun hc => hkl hc.2), hset]
    · rw [if_neg (fun hc => hkP hc.1)]
      by_cases hkj : j = k
      · subst hkj
        rw [List.getElem?_set, if_pos rfl]
        by_cases hkl : j < l.length
        · rw [if_pos hkl, if_pos ⟨List.mem_cons_self j P, hkl⟩]
        · have hnone : l[j]? = none := List.getElem?_eq_none (by omega)
          rw [if_neg hkl, if_neg (fun hc => hkl hc.2), hnone]
      · rw [List.getElem?_set_ne hkj,
          if_neg (fun hc => (List.mem_cons.mp hc.1).elim (fun h => hkj h.symm) hkP)]

/-- A sequential loop writing `g i (cell i)` to cell `i` for the listed cells
leaves every unlisted cell unchanged (no duplicate-freeness needed). -/
theorem foldl_write_getElem?_not_mem (g : Nat → α → α) (d : α) :
    ∀ (P : List Nat) (l : List α) (k : Nat), k ∉ P →
      (P.foldl (fun x i => x.set i (g i (x.getD i d))) l)[k]? = l[k]? := by
  intro P
  induction P with
  | nil =>
    intro l k _
    rfl
  | cons j P ih =>
    intro l k hk
    have hkj : j ≠ k := fun h => hk (h ▸ List.mem_cons_self j P)
    rw [List.foldl_cons, ih _ _ (fun h => hk (List.mem_cons_of_mem j h)),
      List.getElem?_set_ne hkj]

/-- A sequential loop writing a fixed value `v` to each listed cell sets
exactly the listed (in-range) cells to `v`. -/
theorem foldl_set_const_getElem? (v : α) :
    ∀ (P : List Nat) (l : List α) (k : Nat),
      (P.foldl (fun x i => x.set i v) l)[k]? =
        if k ∈ P ∧ k < l.length then some v else l[k]? := by
  intro P
  induction P with
  | nil =>
    intro l k
    simp
  | cons j P ih =>
    intro l k
    rw [List.foldl_cons, ih, List.length_set]
    by_cases hkl : k < l.length
    · by_cases hkP : k ∈ P
      · rw [if_pos ⟨hkP, hkl⟩, if_pos ⟨List.mem_cons_of_mem j hkP, hkl⟩]
      · rw [if_neg (fun hc => hkP hc.1), List.getElem?_set]
        by_cases hkj : j = k
        · subst hkj
          rw [if_pos rfl, if_pos hkl, if_pos ⟨List.mem_cons_self j P, hkl⟩]
        · rw [if_neg hkj,
            if_neg (fun hc => (List.mem_cons.mp hc.1).elim (fun h => hkj h.symm) hkP)]
    · have hnone : l[k]? = none := List.getElem?_eq_none (by omega)
      rw [if_neg (fun hc => hkl hc.2), if_neg (fun hc => hkl hc.2), List.getElem?_set]
      by_cases hkj : j = k
      · subst hkj
        rw [if_pos rfl, if_neg hkl, hnone]
      · rw [if_neg hkj]

/-- A sequential loop over indices `0, ..., n-1` writing `g i` to cell `i`
(the written value not depending on the old cell contents). -/
theorem foldl_set_fn_getElem? (g : Nat → α) :
    ∀ (n : Nat) (l : List α) (k : Nat),
      ((List.range n).foldl (fun x i => x.set i (g i)) l)[k]? =
        if k < n ∧ k < l.length then some (g k) else l[k]? := by
  intro n
  induction n with
  | zero =>
    intro l k
    simp
  | succ n ih =>
    intro l k
    rw [List.range_succ, List.foldl_append, List.foldl_cons, List.foldl_nil]
    have hlen : ((List.range n).foldl (fun x i => x.set i (g i)) l).length = l.length :=
      foldl_length_of_preserve _ (fun x i => List.length_set x i _) _ _
    rw [List.getElem?_set, hlen]
    by_cases hnk : n = k
    · subst hnk
      by_cases hl : n < l.length
      · simp [hl]
      · have hnone : l[n]? = none := List.getElem?_eq_none (by omega)
        simp [hl, ih, hnone]
    · rw [if_neg hnk, ih]
      by_cases h1 : k < n ∧ k < l.length
      · rw [if_pos h1, if_pos ⟨by omega, h1.2⟩]
      · rw [if_neg h1, if_neg (fun hc => h1 ⟨by omega, hc.2⟩)]

end FoldLemmas

section EdgeRepairLemmas

/-- Pointwise contents of the parallel full edge-repair pass. -/
theorem devEdgeRepair_getElem? (pTsub : List Int) (pTe : List Int3)
    (pEt : List Int2) (k : Nat) :
    (devEdgeRepair pTsub pTe pEt)[k]? =
      if k < pEt.length then some (repairPair pTsub pTe k (pEt.getD k default))
      else none := by
  unfold devEdgeRepair
  by_cases hk : k < pEt.length
  · rw [List.getElem?_map, List.getElem?_range hk, if_pos hk]
    rfl
  · rw [List.getElem?_map, List.getElem?_eq_none (by simpa using hk), if_neg hk]
    rfl

/-- The sequential full edge-repair loop computes the same final
edge-triangle array as the parallel pass: iteration `i` writes only cell `i`
and reads only `pTsub`, `pTe` and cell `i`, so no iteration sees another
iteration's write. -/
theorem hostEdgeRepair_eq_devEdgeRepair (pTsub : List Int) (pTe : List Int3)
    (pEt : List Int2) :
    hostEdgeRepair pTsub pTe pEt = devEdgeRepair pTsub pTe pEt := by
  apply List.ext_getElem?
  intro k
  have h := foldl_write_getElem?_range (repairPair pTsub pTe) default pEt.length pEt k
  rw [devEdgeRepair_getElem?]
  unfold hostEdgeRepair SingleEdgeRepair
  rw [h]
  by_cases hk : k < pEt.length
  · rw [if_pos ⟨hk, hk⟩, if_pos hk]
  · rw [if_neg (fun hc => hk hc.1), if_neg hk, List.getElem?_eq_none (by omega)]

/-- Pointwise contents of the parallel candidate-list edge-repair pass. -/
theorem devEdgeRepairLimit_getElem? (nEdgeCheck : Nat) (pEnC : List Nat)
    (pTsub : List Int) (pTe : List Int3) (pEt : List Int2) (k : Nat) :
    (devEdgeRepairLimit nEdgeCheck pEnC pTsub pTe pEt)[k]? =
      if k < pEt.length then
        some (if k ∈ pEnC.take nEdgeCheck
              then repairPair pTsub pTe k (pEt.getD k default)
              else pEt.getD k default)
      else none := by
  unfold devEdgeRepairLimit
  by_cases hk : k < pEt.length
  · rw [List.getElem?_map, List.getElem?_range hk, if_pos hk]
    rfl
  · rw [List.getElem?_map, List.getElem?_eq_none (by simpa using hk), if_neg hk]
    rfl

/-- With a duplicate-free candidate list, the sequential candidate-list
edge-repair loop computes the same final array as the parallel pass. -/
theorem hostEdgeRepairLimit_eq_devEdgeRepairLimit (nEdgeCheck : Nat)
    (pEnC : List Nat) (hnd : (pEnC.take nEdgeCheck).Nodup)
    (pTsub : List Int) (pTe : List Int3) (pEt : List Int2) :
    hostEdgeRepairLimit nEdgeCheck pEnC pTsub pTe pEt =
      devEdgeRepairLimit nEdgeCheck pEnC pTsub pTe pEt := by
  apply List.ext_getElem?
  intro k
  have h := foldl_write_getElem?_nodup (repairPair pTsub pTe) default
    (pEnC.take nEdgeCheck) hnd pEt k
  rw [devEdgeRepairLimit_getElem?]
  unfold hostEdgeRepairLimit SingleEdgeRepair
  rw [h]
  by_cases hk : k < pEt.length
  · by_cases hmem : k ∈ pEnC.take nEdgeCheck
    · rw [if_pos ⟨hmem, hk⟩, if_pos hk, if_pos hmem]
    · rw [if_neg (fun hc => hmem hc.1), if_pos hk, if_neg hmem,
        List.getD_eq_getElem?_getD, List.getElem?_eq_getElem hk]
      rfl
  · rw [if_neg (fun hc => hk hc.2), if_neg hk, List.getElem?_eq_none (by omega)]

/-- The sequential candidate-list loop leaves unlisted edges untouched. -/
theorem hostEdgeRepairLimit_getElem?_not_mem (nEdgeCheck : Nat)
    (pEnC : List Nat) (pTsub : List Int) (pTe : List Int3) (pEt : List Int2)
    (k : Nat) (hk : k ∉ pEnC.take nEdgeCheck) :
    (hostEdgeRepairLimit nEdgeCheck pEnC pTsub pTe pEt)[k]? = pEt[k]? := by
  have h := foldl_write_getElem?_not_mem (repairPair pTsub pTe) default
    (pEnC.take nEdgeCheck) pEt k hk
  unfold hostEdgeRepairLimit SingleEdgeRepair
  rw [h]

/-- The parallel candidate-list pass leaves unlisted edges untouched. -/
theorem devEdgeRepairLimit_getElem?_not_mem (nEdgeCheck : Nat)
    (pEnC : List Nat) (pTsub : List Int) (pTe : List Int3) (pEt : List Int2)
    (k : Nat) (hk : k ∉ pEnC.take nEdgeCheck) :
    (devEdgeRepairLimit nEdgeCheck pEnC pTsub pTe pEt)[k]? = pEt[k]? := by
  rw [devEdgeRepairLimit_getElem?]
  by_cases h : k < pEt.length
  · rw [if_pos h, if_neg hk, List.getD_eq_getElem?_getD, List.getElem?_eq_getElem h]
    rfl
  · rw [if_neg h, List.getElem?_eq_none (by omega)]

end EdgeRepairLemmas

section SetToValueLemmas

/-- The nested host loops of `SetToValue` written as one fold over the
concatenated position lists. -/
theorem hostSetToValue_eq_foldl_flatten (vec : List Int) (value : Int)
    (startIndex endIndex realSize nDims : Nat) :
    hostSetToValue vec value startIndex endIndex realSize nDims =
      (((List.range nDims).map (setPositions startIndex endIndex realSize)).flatten).foldl
        (fun v2 k => v2.set k value) vec := by
  unfold hostSetToValue
  rw [List.foldl_flatten, List.foldl_map]

/-- Flat position `k` is touched by the host loops iff the write condition of
the parallel pass holds at `k`. -/
theorem mem_flatten_setPositions (startIndex endIndex realSize nDims k : Nat) :
    k ∈ (((List.range nDims).map (setPositions startIndex endIndex realSize)).flatten) ↔
      ((List.range nDims).any
        (fun n => decide (startIndex + n * realSize ≤ k) &&
                  decide (k < endIndex + n * realSize))) = true := by
  rw [List.mem_flatten, List.any_eq_true]
  constructor
  · rintro ⟨l, hl, hkl⟩
    rcases List.mem_map.mp hl with ⟨n, hn, rfl⟩
    rcases List.mem_range'_1.mp hkl with ⟨h1, h2⟩
    exact ⟨n, hn, by simp only [Bool.and_eq_true, decide_eq_true_eq]; omega⟩
  · rintro ⟨n, hn, hcond⟩
    simp only [Bool.and_eq_true, decide_eq_true_eq] at hcond
    refine ⟨setPositions startIndex endIndex realSize n, List.mem_map_of_mem _ hn, ?_⟩
    unfold setPositions
    rw [List.mem_range'_1]
    omega

/-- Pointwise contents after the host path of `SetToValue`. -/
theorem hostSetToValue_getElem? (vec : List Int) (value : Int)
    (startIndex endIndex realSize nDims k : Nat) :
    (hostSetToValue vec value startIndex endIndex realSize nDims)[k]? =
      if ((List.range nDims).any
            (fun n => decide (startIndex + n * realSize ≤ k) &&
                      decide (k < endIndex + n * realSize))) = true ∧ k < vec.length
      then some value else vec[k]? := by
  rw [hostSetToValue_eq_foldl_flatten, foldl_set_const_getElem?]
  by_cases h1 : k ∈ (((List.range nDims).map (setPositions startIndex endIndex realSize)).flatten)
  · have h2 := (mem_flatten_setPositions startIndex endIndex realSize nDims k).mp h1
    by_cases hk : k < vec.length
    · rw [if_pos ⟨h1, hk⟩, if_pos ⟨h2, hk⟩]
    · rw [if_neg (fun hc => hk hc.2), if_neg (fun hc => hk hc.2)]
  · have h2 : ¬((List.range nDims).any
        (fun n => decide (startIndex + n * realSize ≤ k) &&
                  decide (k < endIndex + n * realSize))) = true :=
      fun hc => h1 ((mem_flatten_setPositions startIndex endIndex realSize nDims k).mpr hc)
    rw [if_neg (fun hc => h1 hc.1), if_neg (fun hc => h2 hc.1)]

/-- Pointwise contents after the parallel path of `SetToValue`. -/
theorem devSetToValue_getElem? (vec : List Int) (value : Int)
    (startIndex endIndex realSize nDims k : Nat) :
    (devSetToValue vec value startIndex endIndex realSize nDims)[k]? =
      if k < vec.length then
        some (if ((List.range nDims).any
            (fun n => decide (startIndex + n * realSize ≤ k) &&
                      decide (k < endIndex + n * realSize)))
          then value else vec.getD k 0)
      else none := by
  unfold devSetToValue
  by_cases hk : k < vec.length
  · rw [List.getElem?_map, List.getElem?_range hk, if_pos hk]
    rfl
  · rw [List.getElem?_map, List.getElem?_eq_none (by simpa using hk), if_neg hk]
    rfl

/-- The host and parallel paths of `SetToValue` produce the same array. -/
theorem hostSetToValue_eq_devSetToValue (vec : List Int) (value : Int)
    (startIndex endIndex realSize nDims : Nat) :
    hostSetToValue vec value startIndex endIndex realSize nDims =
      devSetToValue vec value startIndex endIndex realSize nDims := by
  apply List.ext_getElem?
  intro k
  rw [hostSetToValue_getElem?, devSetToValue_getElem?]
  by_cases hk : k < vec.length
  · by_cases hcond : ((List.range nDims).any
        (fun n => decide (startIndex + n * realSize ≤ k) &&
                  decide (k < endIndex + n * realSize))) = true
    · rw [if_pos ⟨hcond, hk⟩, if_pos hk, if_pos hcond]
    · rw [if_neg (fun hc => hcond hc.1), if_pos hk,
        if_neg (fun hc => hcond hc), List.getD_eq_getElem?_getD,
        List.getElem?_eq_getElem hk]
      rfl
  · rw [if_neg (fun hc => hk hc.2), if_neg hk, List.getElem?_eq_none (by omega)]

end SetToValueLemmas

section SelectLemmas

/-- Pointwise contents of the host select-flag loop. -/
theorem hostSelectFlags_getElem? (f0 : List Nat) (data : List Int) (value : Int)
    (k : Nat) :
    (hostSelectFlags f0 data value)[k]? =
      if k < data.length ∧ k < f0.length
      then some (if value < data.getD k 0 then 1 else 0) else f0[k]? := by
  unfold hostSelectFlags
  exact foldl_set_fn_getElem? (fun i => if value < data.getD i 0 then 1 else 0)
    data.length f0 k

/-- Pointwise contents of the parallel select-flag pass. -/
theorem devSelectFlags_getElem? (f0 : List Nat) (data : List Int) (value : Int)
    (k : Nat) :
    (devSelectFlags f0 data value)[k]? =
      if k < f0.length then
        some (if k < data.length then (if value < data.getD k 0 then 1 else 0)
              else f0.getD k 0)
      else none := by
  unfold devSelectFlags
  by_cases hk : k < f0.length
  · rw [List.getElem?_map, List.getElem?_range hk, if_pos hk]
    rfl
  · rw [List.getElem?_map, List.getElem?_eq_none (by simpa using hk), if_neg hk]
    rfl

/-- With a correctly sized flag buffer, the host and parallel select-flag
computations agree. -/
theorem hostSelectFlags_eq_devSelectFlags (f0 : List Nat) (data : List Int)
    (value : Int) (hf0 : f0.length = data.length) :
    hostSelectFlags f0 data value = devSelectFlags f0 data value := by
  apply List.ext_getElem?
  intro k
  rw [hostSelectFlags_getElem?, devSelectFlags_getElem?]
  by_cases hk : k < data.length
  · have hk2 : k < f0.length := by omega
    rw [if_pos ⟨hk, hk2⟩, if_pos hk2, if_pos hk]
  · rw [if_neg (fun hc => hk hc.1)]
    by_cases hk2 : k < f0.length
    · rw [if_pos hk2, if_neg hk, List.getD_eq_getElem?_getD,
        List.getElem?_eq_getElem hk2]
      rfl
    · rw [if_neg hk2, List.getElem?_eq_none (by omega)]

/-- With a correctly sized flag buffer, both select-flag computations are the
pointwise image of the data. -/
theorem hostSelectFlags_eq_map (f0 : List Nat) (data : List Int) (value : Int)
    (hf0 : f0.length = data.length) :
    hostSelectFlags f0 data value =
      data.map (fun x => if value < x then 1 else 0) := by
  apply List.ext_getElem?
  intro k
  rw [hostSelectFlags_getElem?, List.getElem?_map]
  by_cases hk : k < data.length
  · rw [if_pos ⟨hk, by omega⟩, List.getElem?_eq_getElem hk,
      List.getD_eq_getElem?_getD, List.getElem?_eq_getElem hk]
    rfl
  · rw [if_neg (fun hc => hk hc.1), List.getElem?_eq_none (by omega),
      List.getElem?_eq_none (by omega)]
    rfl

/-- Compacting a list against its own larger-than flags is the stable
filter of the elements larger than the threshold. -/
theorem Compact_flags_self (value : Int) :
    ∀ d : List Int,
      Compact (d.map (fun x => if value < x then 1 else 0)) d =
        d.filter (fun x => decide (value < x)) := by
  intro d
  induction d with
  | nil => rfl
  | cons x xs ih =>
    by_cases h : value < x
    · simp [Compact, h, ih]
    · simp [Compact, h, ih]

/-- Compacting a companion list against the receiver's larger-than flags
keeps exactly the companion entries at selected indices, in order. -/
theorem Compact_flags_zip {α : Type} (value : Int) :
    ∀ (d : List Int) (a : List α), a.length = d.length →
      Compact (d.map (fun x => if value < x then 1 else 0)) a =
        ((d.zip a).filter (fun p => decide (value < p.1))).map Prod.snd := by
  intro d
  induction d with
  | nil =>
    intro a ha
    rw [List.length_nil, List.length_eq_zero] at ha
    subst ha
    rfl
  | cons x xs ih =>
    intro a ha
    match a with
    | [] => simp at ha
    | y :: ys =>
      simp only [List.length_cons, Nat.succ.injEq] at ha
      by_cases h : value < x
      · simp [Compact, h, ih ys ha]
      · simp [Compact, h, ih ys ha]

/-- The flag total counts the elements larger than the threshold. -/
theorem sum_flags (value : Int) :
    ∀ d : List Int,
      (d.map (fun x => if value < x then 1 else 0)).sum =
        (d.filter (fun x => decide (value < x))).length := by
  intro d
  induction d with
  | nil => rfl
  | cons x xs ih =>
    by_cases h : value < x
    · simp [h, ih, Nat.add_comm]
    · simp [h, ih]

end SelectLemmas

section ReduceIndexLemmas

/-- The subtraction loop preserves the value modulo `nVertex`, exits below
`nVertex`, and keeps nonnegative inputs nonnegative. -/
theorem subLoop_spec (nVertex : Int) (h : 1 ≤ nVertex) (a : Int) :
    subLoop nVertex a % nVertex = a % nVertex ∧ subLoop nVertex a < nVertex ∧
      (0 ≤ a → 0 ≤ subLoop nVertex a) := by
  induction a using subLoop.induct nVertex with
  | case1 a hcond ih =>
    rw [subLoop, dif_pos hcond]
    refine ⟨?_, ih.2.1, fun _ => ih.2.2 (by omega)⟩
    rw [ih.1, Int.emod_sub_cancel]
  | case2 a hcond =>
    rw [subLoop, dif_neg hcond]
    exact ⟨rfl, by omega, fun h0 => h0⟩

/-- The addition loop preserves the value modulo `nVertex`, exits
nonnegative, and keeps inputs below `nVertex` below `nVertex`. -/
theorem addLoop_spec (nVertex : Int) (h : 1 ≤ nVertex) (a : Int) :
    addLoop nVertex a % nVertex = a % nVertex ∧ 0 ≤ addLoop nVertex a ∧
      (a < nVertex → addLoop nVertex a < nVertex) := by
  induction a using addLoop.induct nVertex with
  | case1 a hcond ih =>
    rw [addLoop, dif_pos hcond]
    refine ⟨?_, ih.2.1, fun _ => ih.2.2 (by omega)⟩
    rw [ih.1]
    have hm := @Int.add_mul_emod_self a 1 nVertex
    rw [one_mul] at hm
    exact hm
  | case2 a hcond =>
    rw [addLoop, dif_neg hcond]
    exact ⟨rfl, by omega, fun h0 => h0⟩

/-- The two-loop reduction computes exactly the Euclidean remainder. -/
theorem reduceIndex_eq_emod (nVertex : Int) (h : 1 ≤ nVertex) (a : Int) :
    reduceIndex nVertex a = a % nVertex := by
  obtain ⟨hs1, hs2, _⟩ := subLoop_spec nVertex h a
  obtain ⟨ha1, ha2, ha3⟩ := addLoop_spec nVertex h (subLoop nVertex a)
  have hlt : addLoop nVertex (subLoop nVertex a) < nVertex := ha3 hs2
  have hmod : reduceIndex nVertex a % nVertex = a % nVertex := by
    rw [reduceIndex, ha1, hs1]
  rw [reduceIndex] at hmod ⊢
  rw [← Int.emod_eq_of_lt ha2 hlt, hmod]

end ReduceIndexLemmas

section SlotRepairLemmas

/-- A sentinel or consistent slot is left unchanged by one repair step. -/
theorem slotRepair_of_consistent (pTsub : List Int) (pTe : List Int3) (i : Nat)
    (t : Int) (h : ((t == -1) || containsEdge pTe t i) = true) :
    slotRepair pTsub pTe i t = t := by
  unfold slotRepair
  by_cases h1 : t = -1
  · simp [h1]
  · simp only [Bool.or_eq_true, beq_iff_eq] at h
    rcases h with h | h
    · exact absurd h h1
    · simp [h1, h]

/-- After one repair step of a repairable slot, the slot is a sentinel or
references a triangle whose edge list contains the edge. -/
theorem slotRepair_repairable (pTsub : List Int) (pTe : List Int3) (i : Nat)
    (t : Int) (h : slotRepairable pTsub pTe i t = true) :
    ((slotRepair pTsub pTe i t == -1) ||
      containsEdge pTe (slotRepair pTsub pTe i t) i) = true := by
  unfold slotRepairable at h
  rw [Bool.or_eq_true, Bool.or_eq_true] at h
  unfold slotRepair
  by_cases h1 : t = -1
  · rw [if_pos h1]
    simp [h1]
  · by_cases h2 : containsEdge pTe t i = true
    · rw [if_neg h1, if_pos h2, Bool.or_eq_true]
      exact Or.inr h2
    · rw [if_neg h1, if_neg h2, Bool.or_eq_true]
      rcases h with (h | h) | h
      · exact absurd (by simpa using h) h1
      · exact absurd h h2
      · exact Or.inr h

/-- A fully consistent edge-triangle entry is a fixed point of
`SingleEdgeRepair`'s pair computation. -/
theorem repairPair_of_entryConsistent (pTsub : List Int) (pTe : List Int3)
    (i : Nat) (p : Int2) (h : entryConsistent pTe i p = true) :
    repairPair pTsub pTe i p = p := by
  unfold entryConsistent at h
  rw [Bool.and_eq_true] at h
  unfold repairPair
  rw [slotRepair_of_consistent pTsub pTe i p.x h.1,
    slotRepair_of_consistent pTsub pTe i p.y h.2]

/-- One repair step of a repairable entry yields a consistent entry. -/
theorem repairPair_consistent (pTsub : List Int) (pTe : List Int3) (i : Nat)
    (p : Int2) (hx : slotRepairable pTsub pTe i p.x = true)
    (hy : slotRepairable pTsub pTe i p.y = true) :
    entryConsistent pTe i (repairPair pTsub pTe i p) = true := by
  unfold entryConsistent repairPair
  rw [Bool.and_eq_true]
  exact ⟨slotRepair_repairable pTsub pTe i p.x hx,
    slotRepair_repairable pTsub pTe i p.y hy⟩

/-- Repairing a repairable entry twice is the same as repairing it once. -/
theorem repairPair_idem (pTsub : List Int) (pTe : List Int3) (i : Nat)
    (p : Int2) (hx : slotRepairable pTsub pTe i p.x = true)
    (hy : slotRepairable pTsub pTe i p.y = true) :
    repairPair pTsub pTe i (repairPair pTsub pTe i p) = repairPair pTsub pTe i p :=
  repairPair_of_entryConsistent pTsub pTe i _
    (repairPair_consistent pTsub pTe i p hx hy)

/-- The length of the parallel repair pass output. -/
theorem devEdgeRepair_length (pTsub : List Int) (pTe : List Int3)
    (pEt : List Int2) :
    (devEdgeRepair pTsub pTe pEt).length = pEt.length := by
  unfold devEdgeRepair
  rw [List.length_map, List.length_range]

/-- Under the repairability precondition, a second full parallel repair pass
changes nothing. -/
theorem devEdgeRepair_idem (pTsub : List Int) (pTe : List Int3)
    (pEt : List Int2) (h : repairPrecond pTsub pTe pEt = true) :
    devEdgeRepair pTsub pTe (devEdgeRepair pTsub pTe pEt) =
      devEdgeRepair pTsub pTe pEt := by
  apply List.ext_getElem?
  intro k
  rw [devEdgeRepair_getElem?, devEdgeRepair_getElem?, devEdgeRepair_length]
  by_cases hk : k < pEt.length
  · rw [if_pos hk, if_pos hk]
    have hget : (devEdgeRepair pTsub pTe pEt).getD k default =
        repairPair pTsub pTe k (pEt.getD k default) := by
      rw [List.getD_eq_getElem?_getD, devEdgeRepair_getElem?, if_pos hk]
      rfl
    rw [hget]
    have hall := List.all_eq_true.mp h k (List.mem_range.mpr hk)
    rw [Bool.and_eq_true] at hall
    rw [repairPair_idem pTsub pTe k _ hall.1 hall.2]
  · rw [if_neg hk, if_neg hk]

end SlotRepairLemmas

section RemoveVerticesLemmas

/-- Full characterization of the `RemoveVertices` cycle loop: the number of
cycles performed is the length of the longest prefix of `0, ..., maxCycle-1`
on which removal candidates remain, and the final state is `step` iterated
that many times. -/
theorem RemoveVertices_spec {σ : Type} (step : σ → σ) (nCandidates : σ → Nat) :
    ∀ (maxCycle : Nat) (s : σ),
      (RemoveVertices step nCandidates maxCycle s).2 =
        ((List.range maxCycle).takeWhile
          (fun k => !(nCandidates (step^[k] s) == 0))).length ∧
      (RemoveVertices step nCandidates maxCycle s).1 =
        step^[(RemoveVertices step nCandidates maxCycle s).2] s := by
  intro maxCycle
  induction maxCycle with
  | zero =>
    intro s
    exact ⟨rfl, rfl⟩
  | succ n ih =>
    intro s
    by_cases h0 : nCandidates s = 0
    · have hr : RemoveVertices step nCandidates (n + 1) s = (s, 0) := by
        rw [RemoveVertices, if_pos h0]
      rw [hr, List.range_succ_eq_map, List.takeWhile_cons]
      simp [h0]
    · have hr : RemoveVertices step nCandidates (n + 1) s =
          ((RemoveVertices step nCandidates n (step s)).1,
           (RemoveVertices step nCandidates n (step s)).2 + 1) := by
        rw [RemoveVertices, if_neg h0]
      obtain ⟨ih1, ih2⟩ := ih (step s)
      rw [hr]
      constructor
      · rw [List.range_succ_eq_map, List.takeWhile_cons]
        have hp : (!(nCandidates (step^[0] s) == 0)) = true := by
          simp [h0]
        rw [hp]
        simp only [if_true, List.length_cons, List.takeWhile_map,
          List.length_map]
        rw [ih1]
        have hfun : ((fun k => !(nCandidates (step^[k] (step s)) == 0))) =
            ((fun k => !(nCandidates (step^[k + 1] s) == 0))) := by
          funext k
          rw [Function.iterate_succ_apply]
        rw [hfun]
        rfl
      · rw [ih2, ← Function.iterate_succ_apply]

end RemoveVerticesLemmas

section ReadFromFileLemmas

/-- A line whose (recognized, numeric) parameter guard rejects the value
token has no effect on the parameter state. -/
theorem readLine_of_tokenOk_false {V : Type} (atof : String → V)
    (p : MeshParameterState V) (firstWord secondWord : String)
    (charset : List Char) (hfw : (firstWord, charset) ∈ recognizedParams)
    (hsw : tokenOk charset secondWord = false) :
    readLine atof p firstWord secondWord = p := by
  simp only [recognizedParams, List.mem_cons, Prod.mk.injEq,
    List.not_mem_nil, or_false] at hfw
  rcases hfw with ⟨hf, hc⟩ | ⟨hf, hc⟩ | ⟨hf, hc⟩ | ⟨hf, hc⟩ | ⟨hf, hc⟩ |
    ⟨hf, hc⟩ | ⟨hf, hc⟩ | ⟨hf, hc⟩ | ⟨hf, hc⟩ | ⟨hf, hc⟩ | ⟨hf, hc⟩ |
    ⟨hf, hc⟩ | ⟨hf, hc⟩ | ⟨hf, hc⟩ | ⟨hf, hc⟩
  all_goals subst hf
  all_goals subst hc
  all_goals unfold readLine
  all_goals simp [hsw]

/-- `ReadFromFile` throws exactly when the file cannot be opened or the final
`CheckValidity` fails on the state after all lines are processed. -/
theorem ReadFromFile_error_iff {V : Type} (openOk : Bool)
    (checkValidity : MeshParameterState V → Bool) (atof : String → V)
    (lines : List (String × String)) (p0 : MeshParameterState V) :
    (ReadFromFile openOk checkValidity atof lines p0 = .error ()) ↔
      (openOk = false ∨
        checkValidity (lines.foldl (fun p l => readLine atof p l.1 l.2) p0) = false) := by
  unfold ReadFromFile
  cases openOk with
  | false => simp
  | true =>
    simp only [Bool.not_true, if_false, Bool.false_eq_true, false_or]
    by_cases hcv : checkValidity (lines.foldl (fun p l => readLine atof p l.1 l.2) p0)
    · simp [hcv]
    · simp [hcv]

end ReadFromFileLemmas

section MoreHelpers

/-- For an in-range element index `i < realSize` and dimension `n < nDims`,
the parallel write condition at flat position `i + n * realSize` holds
exactly when `startIndex ≤ i < endIndex` (no bleed into other dimensions as
long as `endIndex ≤ realSize`). -/
theorem setCond_iff (s e r i n nDims : Nat) (hn : n < nDims) (hir : i < r)
    (he : e ≤ r) :
    (((List.range nDims).any (fun m => decide (s + m * r ≤ i + n * r) &&
        decide (i + n * r < e + m * r))) = true) ↔ (s ≤ i ∧ i < e) := by
  rw [List.any_eq_true]
  constructor
  · rintro ⟨m, hm, hcond⟩
    rw [Bool.and_eq_true, decide_eq_true_eq, decide_eq_true_eq] at hcond
    obtain ⟨h1, h2⟩ := hcond
    have hmn : m = n := by
      rcases Nat.lt_trichotomy m n with hlt | heq | hgt
      · have hmul : (m + 1) * r ≤ n * r := Nat.mul_le_mul_right r hlt
        rw [Nat.succ_mul] at hmul
        omega
      · exact heq
      · have hmul : (n + 1) * r ≤ m * r := Nat.mul_le_mul_right r hgt
        rw [Nat.succ_mul] at hmul
        omega
    subst hmn
    omega
  · rintro ⟨h1, h2⟩
    refine ⟨n, List.mem_range.mpr hn, ?_⟩
    rw [Bool.and_eq_true, decide_eq_true_eq, decide_eq_true_eq]
    omega

/-- With a correctly sized flag buffer, the parallel select-flag computation
is the pointwise image of the data. -/
theorem devSelectFlags_eq_map (f0 : List Nat) (data : List Int) (value : Int)
    (hf0 : f0.length = data.length) :
    devSelectFlags f0 data value =
      data.map (fun x => if value < x then 1 else 0) :=
  (hostSelectFlags_eq_devSelectFlags f0 data value hf0).symm.trans
    (hostSelectFlags_eq_map f0 data value hf0)

/-- `EdgeRepair` never touches the substitute array. -/
theorem EdgeRepair_triangleSubstitute (cudaFlag : Nat) (s : DelaunayMeshState)
    (enc : Option (List Nat)) (nEdgeCheck : Nat) :
    (EdgeRepair cudaFlag s enc nEdgeCheck).triangleSubstitute =
      s.triangleSubstitute := rfl

/-- `EdgeRepair` never touches the triangle-edge table. -/
theorem EdgeRepair_triangleEdges (cudaFlag : Nat) (s : DelaunayMeshState)
    (enc : Option (List Nat)) (nEdgeCheck : Nat) :
    (EdgeRepair cudaFlag s enc nEdgeCheck).triangleEdges =
      s.triangleEdges := rfl

/-- Whichever path executes, the full-scope `EdgeRepair` produces the
parallel pass result. -/
theorem EdgeRepair_full_et (cudaFlag : Nat) (s : DelaunayMeshState)
    (nEdgeCheck : Nat) :
    (EdgeRepair cudaFlag s none nEdgeCheck).edgeTriangles =
      devEdgeRepair s.triangleSubstitute s.triangleEdges s.edgeTriangles := by
  show (if cudaFlag = 1 then
      devEdgeRepair s.triangleSubstitute s.triangleEdges s.edgeTriangles
    else hostEdgeRepair s.triangleSubstitute s.triangleEdges s.edgeTriangles) = _
  by_cases hc : cudaFlag = 1
  · rw [if_pos hc]
  · rw [if_neg hc, hostEdgeRepair_eq_devEdgeRepair]

/-- The candidate-list `EdgeRepair` on either path, pointwise. -/
theorem EdgeRepair_limit_et (cudaFlag : Nat) (s : DelaunayMeshState)
    (pEnC : List Nat) (nEdgeCheck : Nat)
    (hnd : (pEnC.take nEdgeCheck).Nodup) :
    (EdgeRepair cudaFlag s (some pEnC) nEdgeCheck).edgeTriangles =
      devEdgeRepairLimit nEdgeCheck pEnC s.triangleSubstitute s.triangleEdges
        s.edgeTriangles := by
  show (if cudaFlag = 1 then
      devEdgeRepairLimit nEdgeCheck pEnC s.triangleSubstitute s.triangleEdges
        s.edgeTriangles
    else hostEdgeRepairLimit nEdgeCheck pEnC s.triangleSubstitute
      s.triangleEdges s.edgeTriangles) = _
  by_cases hc : cudaFlag = 1
  · rw [if_pos hc]
  · rw [if_neg hc, hostEdgeRepairLimit_eq_devEdgeRepairLimit nEdgeCheck pEnC hnd]

/-- Whichever path executes, the select flags are the pointwise image of the
data (given a correctly sized buffer). -/
theorem selectFlagsOf_eq_map (cudaFlag : Nat) (f0 : List Nat) (data : List Int)
    (value : Int) (hf0 : f0.length = data.length) :
    selectFlagsOf cudaFlag f0 data value =
      data.map (fun x => if value < x then 1 else 0) := by
  unfold selectFlagsOf
  by_cases hc : cudaFlag = 1
  · rw [if_pos hc, devSelectFlags_eq_map f0 data value hf0]
  · rw [if_neg hc, hostSelectFlags_eq_map f0 data value hf0]

/-- Whichever path executes, `SetToValue` produces the parallel pass
result. -/
theorem SetToValue_vec (cudaFlag : Nat) (a : ArrayInt) (value : Int)
    (startIndex endIndex : Nat) :
    (SetToValue cudaFlag a value startIndex endIndex).vec =
      devSetToValue a.vec value startIndex endIndex a.realSize a.nDims := by
  show (if cudaFlag = 1 then
      devSetToValue a.vec value startIndex endIndex a.realSize a.nDims
    else hostSetToValue a.vec value startIndex endIndex a.realSize a.nDims) = _
  by_cases hc : cudaFlag = 1
  · rw [if_pos hc]
  · rw [if_neg hc, hostSetToValue_eq_devSetToValue]

/-- Two `EdgeRepair` calls on the same state agree once their edge-triangle
outputs agree (the other two fields are never written). -/
theorem EdgeRepair_congr (cf cf' : Nat) (s : DelaunayMeshState)
    (enc : Option (List Nat)) (n n' : Nat)
    (h : (EdgeRepair cf s enc n).edgeTriangles =
      (EdgeRepair cf' s enc n').edgeTriangles) :
    EdgeRepair cf s enc n = EdgeRepair cf' s enc n' := by
  have e1 : EdgeRepair cf s enc n =
      ⟨s.triangleSubstitute, s.triangleEdges,
        (EdgeRepair cf s enc n).edgeTriangles⟩ := rfl
  have e2 : EdgeRepair cf' s enc n' =
      ⟨s.triangleSubstitute, s.triangleEdges,
        (EdgeRepair cf' s enc n').edgeTriangles⟩ := rfl
  rw [e1, e2, h]

/-- Two `SetToValue` calls on the same array agree once their storage
outputs agree. -/
theorem SetToValue_congr (cf cf' : Nat) (a : ArrayInt) (value : Int)
    (startIndex endIndex : Nat)
    (h : (SetToValue cf a value startIndex endIndex).vec =
      (SetToValue cf' a value startIndex endIndex).vec) :
    SetToValue cf a value startIndex endIndex =
      SetToValue cf' a value startIndex endIndex := by
  have e1 : SetToValue cf a value startIndex endIndex =
      ⟨a.size, a.realSize, a.nDims, (SetToValue cf a value startIndex endIndex).vec⟩ := rfl
  have e2 : SetToValue cf' a value startIndex endIndex =
      ⟨a.size, a.realSize, a.nDims, (SetToValue cf' a value startIndex endIndex).vec⟩ := rfl
  rw [e1, e2, h]

end MoreHelpers

/-! ## The checked claims -/

/-- C1 (counterexample).  The claim says edge repair walks the substitute
chain from a stale triangle reference until reaching a triangle whose
current edge list truly contains the edge, and rewrites the entry to that
triangle.  Here edge 0's entry references triangle 0, whose edge list
`(1,2,3)` lacks edge 0; the substitute chain `0 → 1 → 2` reaches triangle 2,
whose edge list `(0,7,8)` contains edge 0 — yet `EdgeRepair` performs one
substitution step only and rewrites the entry to triangle 1, whose edge list
`(4,5,6)` still lacks edge 0. -/
theorem C1_chain_walk_counterexample :
    (EdgeRepair 0 ⟨[1, 2, -1], [⟨1, 2, 3⟩, ⟨4, 5, 6⟩, ⟨0, 7, 8⟩], [⟨0, -1⟩]⟩
        none 0).edgeTriangles = [⟨1, -1⟩] ∧
    containsEdge [⟨1, 2, 3⟩, ⟨4, 5, 6⟩, ⟨0, 7, 8⟩] 1 0 = false ∧
    substituteChainWalk [1, 2, -1] [⟨1, 2, 3⟩, ⟨4, 5, 6⟩, ⟨0, 7, 8⟩] 0 2 0 = 2 ∧
    containsEdge [⟨1, 2, 3⟩, ⟨4, 5, 6⟩, ⟨0, 7, 8⟩] 2 0 = true := by
  refine ⟨?_, by decide, by decide, by decide⟩
  rw [EdgeRepair_full_et]
  decide

/-- C1 (amended).  `EdgeRepair` performs exactly one substitution step on a
stale slot: a non-sentinel slot whose triangle's current edge list does not
contain the edge is rewritten to that triangle's immediate substitute
`pTsub[t]`, without following the chain further and without checking the
substitute.  When the immediate substitute does contain the edge (and the
other slot is likewise repairable in one step), the rewritten entry
references only triangles whose current edge lists truly contain the
edge. -/
theorem C1_single_step_repair (pTsub : List Int) (pTe : List Int3)
    (pEt : List Int2) (i : Nat) (hi : i < pEt.length)
    (hx : (pEt.getD i default).x ≠ -1)
    (hstale : containsEdge pTe (pEt.getD i default).x i = false)
    (hsub : containsEdge pTe
      (pTsub.getD (pEt.getD i default).x.toNat (-1)) i = true)
    (hy : slotRepairable pTsub pTe i (pEt.getD i default).y = true) :
    ((EdgeRepair 0 ⟨pTsub, pTe, pEt⟩ none 0).edgeTriangles.getD i default).x =
      pTsub.getD (pEt.getD i default).x.toNat (-1) ∧
    entryConsistent pTe i
      ((EdgeRepair 0 ⟨pTsub, pTe, pEt⟩ none 0).edgeTriangles.getD i default) = true := by
  have hfe : (EdgeRepair 0 ⟨pTsub, pTe, pEt⟩ none 0).edgeTriangles =
      devEdgeRepair pTsub pTe pEt := EdgeRepair_full_et 0 ⟨pTsub, pTe, pEt⟩ 0
  have hget : (EdgeRepair 0 ⟨pTsub, pTe, pEt⟩ none 0).edgeTriangles.getD i default
      = repairPair pTsub pTe i (pEt.getD i default) := by
    rw [hfe, List.getD_eq_getElem?_getD, devEdgeRepair_getElem?, if_pos hi]
    rfl
  rw [hget]
  constructor
  · show slotRepair pTsub pTe i (pEt.getD i default).x = _
    unfold slotRepair
    rw [if_neg hx, if_neg (by rw [hstale]; exact Bool.false_ne_true)]
  · apply repairPair_consistent
    · unfold slotRepairable
      rw [hsub, Bool.or_true]
    · exact hy

/-- C1 (witness for the amended theorem). -/
theorem C1_single_step_repair_witness :
    ((EdgeRepair 0 ⟨[1, 0], [⟨1, 2, 3⟩, ⟨0, 4, 5⟩], [⟨0, -1⟩]⟩
        none 0).edgeTriangles.getD 0 default).x = 1 ∧
    entryConsistent [⟨1, 2, 3⟩, ⟨0, 4, 5⟩] 0
      ((EdgeRepair 0 ⟨[1, 0], [⟨1, 2, 3⟩, ⟨0, 4, 5⟩], [⟨0, -1⟩]⟩
        none 0).edgeTriangles.getD 0 default) = true := by
  have h := C1_single_step_repair [1, 0] [⟨1, 2, 3⟩, ⟨0, 4, 5⟩] [⟨0, -1⟩] 0
    (by decide) (by decide) (by decide) (by decide) (by decide)
  exact ⟨h.1.trans (by decide), h.2⟩

/-- C2.  For `nVertex ≥ 1` the index-reduction loop of
`CalcShockSensorSingle` terminates (the model is total) and yields the
unique value congruent to `a` modulo `nVertex` lying in `[0, nVertex)` —
the Euclidean remainder — so subsequent array accesses use an in-range
index. -/
theorem C2_index_reduction (nVertex a b : Int) (h : 1 ≤ nVertex)
    (hb0 : 0 ≤ b) (hbn : b < nVertex) (hcong : nVertex ∣ a - b) :
    reduceIndex nVertex a = b ∧ reduceIndex nVertex a = a % nVertex ∧
      0 ≤ reduceIndex nVertex a ∧ reduceIndex nVertex a < nVertex := by
  have hmod := reduceIndex_eq_emod nVertex h a
  have hb : b = a % nVertex := by
    have hz : (a - b) % nVertex = 0 := Int.emod_eq_zero_of_dvd hcong
    have h2 : a % nVertex = b % nVertex :=
      Int.emod_eq_emod_iff_emod_sub_eq_zero.mpr hz
    rw [Int.emod_eq_of_lt hb0 hbn] at h2
    exact h2.symm
  have hnz : nVertex ≠ 0 := by omega
  refine ⟨?_, hmod, ?_, ?_⟩
  · rw [hmod, ← hb]
  · rw [hmod]
    exact Int.emod_nonneg a hnz
  · rw [hmod]
    exact Int.emod_lt_of_pos a (by omega)

/-- C2 (witness). -/
theorem C2_index_reduction_witness :
    reduceIndex 3 (-7) = 2 ∧ reduceIndex 3 (-7) = -7 % 3 ∧
      0 ≤ reduceIndex 3 (-7) ∧ reduceIndex 3 (-7) < 3 :=
  C2_index_reduction 3 (-7) 2 (by decide) (by decide) (by decide)
    ⟨-3, by decide⟩

/-- C3.  The accelerator path (`cudaFlag = 1`) and the sequential host path
(`cudaFlag = 0`) are behaviourally equivalent for a batch pass:
`Delaunay::EdgeRepair` (both scopes; the candidate list carries no
duplicates, as its documented format `pEdgeNeedsChecking[i] = i`
guarantees), `Array::SetToValue` and `Array::SelectLargerThan` produce
identical final array contents and identical return values. -/
theorem C3_cuda_host_equivalence (s : DelaunayMeshState) (pEnC : List Nat)
    (nEdgeCheck : Nat) (a : ArrayInt) (value : Int)
    (startIndex endIndex : Nat) (f0 : List Nat) (v : Int) (d : List Int)
    (compan : List Int) (hnd : (pEnC.take nEdgeCheck).Nodup)
    (hf0 : f0.length = d.length) :
    EdgeRepair 1 s none 0 = EdgeRepair 0 s none 0 ∧
    EdgeRepair 1 s (some pEnC) nEdgeCheck =
      EdgeRepair 0 s (some pEnC) nEdgeCheck ∧
    SetToValue 1 a value startIndex endIndex =
      SetToValue 0 a value startIndex endIndex ∧
    SelectLargerThan 1 f0 v d compan = SelectLargerThan 0 f0 v d compan := by
  refine ⟨?_, ?_, ?_, ?_⟩
  · exact EdgeRepair_congr 1 0 s none 0 0
      ((EdgeRepair_full_et 1 s 0).trans (EdgeRepair_full_et 0 s 0).symm)
  · exact EdgeRepair_congr 1 0 s (some pEnC) nEdgeCheck nEdgeCheck
      ((EdgeRepair_limit_et 1 s pEnC nEdgeCheck hnd).trans
        (EdgeRepair_limit_et 0 s pEnC nEdgeCheck hnd).symm)
  · exact SetToValue_congr 1 0 a value startIndex endIndex
      ((SetToValue_vec 1 a value startIndex endIndex).trans
        (SetToValue_vec 0 a value startIndex endIndex).symm)
  · unfold SelectLargerThan
    rw [selectFlagsOf_eq_map 1 f0 d v hf0, selectFlagsOf_eq_map 0 f0 d v hf0]

/-- C3 (witness). -/
theorem C3_cuda_host_equivalence_witness :
    EdgeRepair 1 ⟨[0], [⟨0, 1, 2⟩], [⟨0, -1⟩]⟩ none 0 =
      EdgeRepair 0 ⟨[0], [⟨0, 1, 2⟩], [⟨0, -1⟩]⟩ none 0 ∧
    EdgeRepair 1 ⟨[0], [⟨0, 1, 2⟩], [⟨0, -1⟩]⟩ (some [0]) 1 =
      EdgeRepair 0 ⟨[0], [⟨0, 1, 2⟩], [⟨0, -1⟩]⟩ (some [0]) 1 ∧
    SetToValue 1 ⟨1, 1, 1, [5]⟩ 7 0 1 = SetToValue 0 ⟨1, 1, 1, [5]⟩ 7 0 1 ∧
    SelectLargerThan 1 [0] 0 [3] ([9] : List Int) =
      SelectLargerThan 0 [0] 0 [3] ([9] : List Int) :=
  C3_cuda_host_equivalence ⟨[0], [⟨0, 1, 2⟩], [⟨0, -1⟩]⟩ [0] 1
    ⟨1, 1, 1, [5]⟩ 7 0 1 [0] 0 [3] ([9] : List Int) (by decide) (by decide)

/-- C4.  With a candidate list, `EdgeRepair` leaves every edge not among the
first `nEdgeCheck` listed edges unchanged; with a null list, every edge
index below the edge count is processed (its entry is rewritten to the
repaired pair computed from the pass-start state).  In both modes the
triangle-edge table and the substitute array are read but never modified.
Holds on either execution path. -/
theorem C4_edge_repair_frame (cudaFlag : Nat) (s : DelaunayMeshState)
    (pEnC : List Nat) (nEdgeCheck : Nat) (j i : Nat)
    (hj : j ∉ pEnC.take nEdgeCheck) (hi : i < s.edgeTriangles.length) :
    (EdgeRepair cudaFlag s (some pEnC) nEdgeCheck).triangleSubstitute =
      s.triangleSubstitute ∧
    (EdgeRepair cudaFlag s (some pEnC) nEdgeCheck).triangleEdges =
      s.triangleEdges ∧
    (EdgeRepair cudaFlag s (some pEnC) nEdgeCheck).edgeTriangles[j]? =
      s.edgeTriangles[j]? ∧
    (EdgeRepair cudaFlag s none 0).triangleSubstitute = s.triangleSubstitute ∧
    (EdgeRepair cudaFlag s none 0).triangleEdges = s.triangleEdges ∧
    (EdgeRepair cudaFlag s none 0).edgeTriangles[i]? =
      some (repairPair s.triangleSubstitute s.triangleEdges i
        (s.edgeTriangles.getD i default)) := by
  refine ⟨rfl, rfl, ?_, rfl, rfl, ?_⟩
  · show (if cudaFlag = 1 then
        devEdgeRepairLimit nEdgeCheck pEnC s.triangleSubstitute
          s.triangleEdges s.edgeTriangles
      else hostEdgeRepairLimit nEdgeCheck pEnC s.triangleSubstitute
        s.triangleEdges s.edgeTriangles)[j]? = _
    by_cases hc : cudaFlag = 1
    · rw [if_pos hc]
      exact devEdgeRepairLimit_getElem?_not_mem nEdgeCheck pEnC
        s.triangleSubstitute s.triangleEdges s.edgeTriangles j hj
    · rw [if_neg hc]
      exact hostEdgeRepairLimit_getElem?_not_mem nEdgeCheck pEnC
        s.triangleSubstitute s.triangleEdges s.edgeTriangles j hj
  · rw [EdgeRepair_full_et, devEdgeRepair_getElem?, if_pos hi]

/-- C4 (witness). -/
theorem C4_edge_repair_frame_witness :
    (EdgeRepair 0 ⟨[0], [⟨0, 1, 2⟩], [⟨0, -1⟩, ⟨-1, -1⟩]⟩ (some [0]) 1).triangleSubstitute =
      (⟨[0], [⟨0, 1, 2⟩], [⟨0, -1⟩, ⟨-1, -1⟩]⟩ : DelaunayMeshState).triangleSubstitute ∧
    (EdgeRepair 0 ⟨[0], [⟨0, 1, 2⟩], [⟨0, -1⟩, ⟨-1, -1⟩]⟩ (some [0]) 1).triangleEdges =
      (⟨[0], [⟨0, 1, 2⟩], [⟨0, -1⟩, ⟨-1, -1⟩]⟩ : DelaunayMeshState).triangleEdges ∧
    (EdgeRepair 0 ⟨[0], [⟨0, 1, 2⟩], [⟨0, -1⟩, ⟨-1, -1⟩]⟩ (some [0]) 1).edgeTriangles[1]? =
      (⟨[0], [⟨0, 1, 2⟩], [⟨0, -1⟩, ⟨-1, -1⟩]⟩ : DelaunayMeshState).edgeTriangles[1]? ∧
    (EdgeRepair 0 ⟨[0], [⟨0, 1, 2⟩], [⟨0, -1⟩, ⟨-1, -1⟩]⟩ none 0).triangleSubstitute =
      (⟨[0], [⟨0, 1, 2⟩], [⟨0, -1⟩, ⟨-1, -1⟩]⟩ : DelaunayMeshState).triangleSubstitute ∧
    (EdgeRepair 0 ⟨[0], [⟨0, 1, 2⟩], [⟨0, -1⟩, ⟨-1, -1⟩]⟩ none 0).triangleEdges =
      (⟨[0], [⟨0, 1, 2⟩], [⟨0, -1⟩, ⟨-1, -1⟩]⟩ : DelaunayMeshState).triangleEdges ∧
    (EdgeRepair 0 ⟨[0], [⟨0, 1, 2⟩], [⟨0, -1⟩, ⟨-1, -1⟩]⟩ none 0).edgeTriangles[0]? =
      some (repairPair [0] [⟨0, 1, 2⟩] 0
        (([⟨0, -1⟩, ⟨-1, -1⟩] : List Int2).getD 0 default)) :=
  C4_edge_repair_frame 0 ⟨[0], [⟨0, 1, 2⟩], [⟨0, -1⟩, ⟨-1, -1⟩]⟩ [0] 1 1 0
    (by decide) (by decide)

/-- C5.  `SelectLargerThan(v, A)` returns exactly the number of indices
whose element is strictly greater than `v`, and afterwards the receiver and
the companion array contain exactly the elements at those selected indices,
compacted to the front in their original relative order — on either
execution path. -/
theorem C5_select_larger_than {α : Type} (cudaFlag : Nat) (f0 : List Nat)
    (value : Int) (d : List Int) (compan : List α)
    (hf0 : f0.length = d.length) (hcomp : compan.length = d.length) :
    (SelectLargerThan cudaFlag f0 value d compan).1 =
      (d.filter (fun x => decide (value < x))).length ∧
    (SelectLargerThan cudaFlag f0 value d compan).2.1 =
      d.filter (fun x => decide (value < x)) ∧
    (SelectLargerThan cudaFlag f0 value d compan).2.2 =
      ((d.zip compan).filter (fun p => decide (value < p.1))).map Prod.snd := by
  unfold SelectLargerThan ExclusiveScan
  rw [selectFlagsOf_eq_map cudaFlag f0 d value hf0]
  exact ⟨sum_flags value d, Compact_flags_self value d,
    Compact_flags_zip value d compan hcomp⟩

/-- C5 (witness). -/
theorem C5_select_larger_than_witness :
    (SelectLargerThan 0 [0, 0, 0] 2 [1, 5, 2] ([10, 20, 30] : List Int)).1 =
      (([1, 5, 2] : List Int).filter (fun x => decide ((2 : Int) < x))).length ∧
    (SelectLargerThan 0 [0, 0, 0] 2 [1, 5, 2] ([10, 20, 30] : List Int)).2.1 =
      ([1, 5, 2] : List Int).filter (fun x => decide ((2 : Int) < x)) ∧
    (SelectLargerThan 0 [0, 0, 0] 2 [1, 5, 2] ([10, 20, 30] : List Int)).2.2 =
      ((([1, 5, 2] : List Int).zip ([10, 20, 30] : List Int)).filter
        (fun p => decide ((2 : Int) < p.1))).map Prod.snd :=
  C5_select_larger_than 0 [0, 0, 0] 2 [1, 5, 2] ([10, 20, 30] : List Int)
    (by decide) (by decide)

/-- C6.  `SetToValue(v, startIndex, endIndex)` sets every element with index
in `[startIndex, endIndex)` to `v` in every dimension of the array and
leaves every element with index below `startIndex` or at or above
`endIndex` unchanged (for in-range element indices `i < realSize` and an
in-bounds range `endIndex ≤ realSize` of the flat storage) — on either
execution path. -/
theorem C6_set_to_value (cudaFlag : Nat) (A : ArrayInt) (value : Int)
    (startIndex endIndex n i : Nat) (hn : n < A.nDims)
    (he : endIndex ≤ A.realSize) (hi : i < A.realSize)
    (hlen : A.vec.length = A.nDims * A.realSize) :
    (SetToValue cudaFlag A value startIndex endIndex).vec.getD
        (i + n * A.realSize) 0 =
      if startIndex ≤ i ∧ i < endIndex then value
      else A.vec.getD (i + n * A.realSize) 0 := by
  rw [SetToValue_vec, List.getD_eq_getElem?_getD, devSetToValue_getElem?]
  have hk : i + n * A.realSize < A.vec.length := by
    rw [hlen]
    calc i + n * A.realSize < A.realSize + n * A.realSize := by omega
      _ = (n + 1) * A.realSize := by rw [Nat.succ_mul, Nat.add_comm]
      _ ≤ A.nDims * A.realSize := Nat.mul_le_mul_right _ hn
  rw [if_pos hk]
  by_cases hcond : startIndex ≤ i ∧ i < endIndex
  · rw [if_pos hcond]
    have hany := (setCond_iff startIndex endIndex A.realSize i n A.nDims
      hn hi he).mpr hcond
    rw [if_pos hany]
    rfl
  · rw [if_neg hcond]
    have hany : ¬(((List.range A.nDims).any
        (fun m => decide (startIndex + m * A.realSize ≤ i + n * A.realSize) &&
          decide (i + n * A.realSize < endIndex + m * A.realSize))) = true) :=
      fun hc => hcond ((setCond_iff startIndex endIndex A.realSize i n A.nDims
        hn hi he).mp hc)
    rw [if_neg hany]
    rfl

/-- C6 (witness). -/
theorem C6_set_to_value_witness :
    (SetToValue 0 ⟨2, 2, 2, [1, 2, 3, 4]⟩ 9 0 1).vec.getD (0 + 1 * 2) 0 =
      if 0 ≤ 0 ∧ 0 < 1 then (9 : Int)
      else ([1, 2, 3, 4] : List Int).getD (0 + 1 * 2) 0 :=
  C6_set_to_value 0 ⟨2, 2, 2, [1, 2, 3, 4]⟩ 9 0 1 1 0
    (by decide) (by decide) (by decide) (by decide)

/-- C7.  `Coarsen::RemoveVertices` performs at most `maxCycle` removal
cycles; the number of cycles performed is exactly the length of the longest
prefix of cycles on which removal candidates remain, so the loop stops as
soon as a cycle finds no candidates, and the final state is `step` iterated
that many times. -/
theorem C7_remove_vertices_cycles {σ : Type} (step : σ → σ)
    (nCandidates : σ → Nat) (maxCycle : Nat) (s : σ) :
    (RemoveVertices step nCandidates maxCycle s).2 ≤ maxCycle ∧
    (RemoveVertices step nCandidates maxCycle s).2 =
      ((List.range maxCycle).takeWhile
        (fun k => !(nCandidates (step^[k] s) == 0))).length ∧
    (RemoveVertices step nCandidates maxCycle s).1 =
      step^[(RemoveVertices step nCandidates maxCycle s).2] s := by
  obtain ⟨h1, h2⟩ := RemoveVertices_spec step nCandidates maxCycle s
  refine ⟨?_, h1, h2⟩
  rw [h1]
  calc ((List.range maxCycle).takeWhile
        (fun k => !(nCandidates (step^[k] s) == 0))).length
      ≤ (List.range maxCycle).length := (List.takeWhile_sublist _).length_le
    _ = maxCycle := List.length_range maxCycle

/-- C8.  `SingleEdgeRepair` preserves boundary/periodic sentinels: a slot of
the repaired edge-triangle entry that equals `-1` before repair still equals
`-1` afterwards (`sel` selects either of the two slots). -/
theorem C8_sentinel_preserved (pTsub : List Int) (pTe : List Int3)
    (pEt : List Int2) (i : Nat) (sel : Int2 → Int)
    (hsel : sel = Int2.x ∨ sel = Int2.y) (hi : i < pEt.length)
    (h : sel (pEt.getD i default) = -1) :
    sel ((SingleEdgeRepair pTsub pTe pEt i).getD i default) = -1 := by
  have hget : (SingleEdgeRepair pTsub pTe pEt i).getD i default =
      repairPair pTsub pTe i (pEt.getD i default) := by
    unfold SingleEdgeRepair
    rw [List.getD_eq_getElem?_getD, List.getElem?_set_self hi]
    rfl
  rw [hget]
  rcases hsel with hs | hs
  · subst hs
    show slotRepair pTsub pTe i (pEt.getD i default).x = -1
    rw [show (pEt.getD i default).x = -1 from h]
    unfold slotRepair
    rw [if_pos rfl]
  · subst hs
    show slotRepair pTsub pTe i (pEt.getD i default).y = -1
    rw [show (pEt.getD i default).y = -1 from h]
    unfold slotRepair
    rw [if_pos rfl]

/-- C8 (witness). -/
theorem C8_sentinel_preserved_witness :
    Int2.x ((SingleEdgeRepair [] [] [⟨-1, 5⟩] 0).getD 0 default) = -1 :=
  C8_sentinel_preserved [] [] [⟨-1, 5⟩] 0 Int2.x (Or.inl rfl) (by decide)
    (by decide)

/-- C9.  `SingleEdgeRepair` is the identity on consistent entries, and —
under the precondition that every substitute of a stale reference contains
the repaired edge — a second full repair pass changes nothing
(idempotence). -/
theorem C9_repair_identity_idempotent (pTsub : List Int) (pTe : List Int3)
    (pEt : List Int2) (i : Nat) (p : Int2)
    (h1 : entryConsistent pTe i p = true)
    (h2 : repairPrecond pTsub pTe pEt = true) :
    repairPair pTsub pTe i p = p ∧
    EdgeRepair 1 (EdgeRepair 1 ⟨pTsub, pTe, pEt⟩ none 0) none 0 =
      EdgeRepair 1 ⟨pTsub, pTe, pEt⟩ none 0 := by
  refine ⟨repairPair_of_entryConsistent pTsub pTe i p h1, ?_⟩
  show (⟨pTsub, pTe, devEdgeRepair pTsub pTe (devEdgeRepair pTsub pTe pEt)⟩ :
      DelaunayMeshState) = ⟨pTsub, pTe, devEdgeRepair pTsub pTe pEt⟩
  rw [devEdgeRepair_idem pTsub pTe pEt h2]

/-- C9 (witness). -/
theorem C9_repair_identity_idempotent_witness :
    repairPair [0] [⟨0, 1, 2⟩] 0 ⟨0, -1⟩ = ⟨0, -1⟩ ∧
    EdgeRepair 1 (EdgeRepair 1 ⟨[0], [⟨0, 1, 2⟩], [⟨0, -1⟩]⟩ none 0) none 0 =
      EdgeRepair 1 ⟨[0], [⟨0, 1, 2⟩], [⟨0, -1⟩]⟩ none 0 :=
  C9_repair_identity_idempotent [0] [⟨0, 1, 2⟩] [⟨0, -1⟩] 0 ⟨0, -1⟩
    (by decide) (by decide)

/-- C10.  `MeshParameter::ReadFromFile` leaves a recognized parameter at its
previous value and raises no error when the line's value token is empty or
contains a character outside that parameter's allowed set, and the function
throws exactly when the input file cannot be opened or the final
`CheckValidity` fails after the whole file is read. -/
theorem C10_read_from_file {V : Type} (openOk : Bool)
    (checkValidity : MeshParameterState V → Bool) (atof : String → V)
    (lines : List (String × String)) (p0 p : MeshParameterState V)
    (firstWord secondWord : String) (charset : List Char)
    (hfw : (firstWord, charset) ∈ recognizedParams)
    (hsw : tokenOk charset secondWord = false) :
    readLine atof p firstWord secondWord = p ∧
    ((ReadFromFile openOk checkValidity atof lines p0 = .error ()) ↔
      (openOk = false ∨
        checkValidity (lines.foldl (fun q l => readLine atof q l.1 l.2) p0)
          = false)) :=
  ⟨readLine_of_tokenOk_false atof p firstWord secondWord charset hfw hsw,
   ReadFromFile_error_iff openOk checkValidity atof lines p0⟩

/-- C10 (witness). -/
theorem C10_read_from_file_witness :
    readLine (fun w => w.length)
      ⟨.UNDEFINED, 0, 0, 0, 0, 0, 0, 0, 0, 0, 0, 0, 0, 0, 0, 0⟩ "minX" "1a2" =
      ⟨.UNDEFINED, 0, 0, 0, 0, 0, 0, 0, 0, 0, 0, 0, 0, 0, 0, 0⟩ ∧
    ((ReadFromFile true (fun _ => true) (fun w => w.length)
        [("minX", "1a2")]
        ⟨.UNDEFINED, 0, 0, 0, 0, 0, 0, 0, 0, 0, 0, 0, 0, 0, 0, 0⟩ = .error ()) ↔
      (true = false ∨
        (fun _ => true) ([("minX", "1a2")].foldl
          (fun q l => readLine (fun w => w.length) q l.1 l.2)
          ⟨.UNDEFINED, 0, 0, 0, 0, 0, 0, 0, 0, 0, 0, 0, 0, 0, 0, 0⟩) = false)) :=
  C10_read_from_file true (fun _ => true) (fun w => w.length)
    [("minX", "1a2")] ⟨.UNDEFINED, 0, 0, 0, 0, 0, 0, 0, 0, 0, 0, 0, 0, 0, 0, 0⟩
    ⟨.UNDEFINED, 0, 0, 0, 0, 0, 0, 0, 0, 0, 0, 0, 0, 0, 0, 0⟩ "minX" "1a2"
    realChars (by decide) (by decide)

end Astrix
